import Mathlib

/-!
Verification of the tree model and pretty-printer in `src/model.rs` of the
pest-test repository: the `Expression` tree type, its two constructors
(`try_from_sexpr` decoding a hand-written S-expression parse tree, and
`try_from_code` adapting an arbitrary parser's output), the
`ExpressionFormatter`, and the `TestCase` assembler.

Shallow embedding conventions:
- a pest `Pair<'a, Rule>` is modelled by `Pair`: its rule, its matched text
  (`as_str`) and its inner pairs in order (`into_inner`);
- a pest `Pair<'a, R>` over a generic `R: RuleType` is modelled by
  `CodePair`, whose `ruleName` field stands for the text produced by
  `format!("{:?}", pair.as_rule())`;
- Rust `Result<T, ModelError>` becomes `Except ModelError T`;
- the formatter's `&mut dyn Write` sink is modelled by the ordered list of
  strings written to it (`out`), one entry per `write_str`/`write_char`
  call received by the sink.
-/

/-- The `Rule` enum generated from the repository's pest grammar
(`src/parser.rs` is outside `src/`; these are the variants `model.rs`
references, plus `div` and friends used by the test-file sections). -/
inductive Rule where
  | test_name
  | code_block
  | div
  | code
  | expression
  | rule_name
  | sub_expressions
  | rule_value_str
  | rule_value
deriving DecidableEq

/-- Models `format!("{:?}", rule)` for `Rule`: Rust's derived `Debug` prints
the variant identifier. -/
def Rule.debugStr : Rule → String
  | .test_name => "test_name"
  | .code_block => "code_block"
  | .div => "div"
  | .code => "code"
  | .expression => "expression"
  | .rule_name => "rule_name"
  | .sub_expressions => "sub_expressions"
  | .rule_value_str => "rule_value_str"
  | .rule_value => "rule_value"

/-- The single error kind of `model.rs`: `pub struct ModelError(String)`. -/
structure ModelError where
  msg : String
deriving DecidableEq

/-- Models `ModelError::from_str`. -/
def ModelError.from_str (msg : String) : ModelError := ⟨msg⟩

/-- Models a pest `Pair<'a, Rule>`: the matched rule, the matched text span
(`as_str`) and the ordered inner pairs (`into_inner`). -/
inductive Pair where
  | mk (rule : Rule) (str : String) (children : List Pair)

/-- Models `Pair::as_rule`. -/
def Pair.as_rule : Pair → Rule
  | .mk r _ _ => r

/-- Models `Pair::as_str`. -/
def Pair.as_str : Pair → String
  | .mk _ s _ => s

/-- Models `Pair::into_inner` as the ordered list of inner pairs. -/
def Pair.into_inner : Pair → List Pair
  | .mk _ _ cs => cs

/-- Abstract model of pest's `Debug` rendering of a `Pair`, used only inside
the `assert_rule` error message (`format!("Expected pair {:?} rule to be
{:?}", pair, rule)`); no claim depends on its exact shape. -/
def Pair.debugStr : Pair → String
  | .mk r s _ => "Pair(" ++ r.debugStr ++ ", \"" ++ s ++ "\")"

/-- Models `assert_rule` of `model.rs`. -/
def assert_rule (pair : Pair) (rule : Rule) : Except ModelError Pair :=
  if pair.as_rule = rule then
    .ok pair
  else
    .error ⟨"Expected pair " ++ pair.debugStr ++ " rule to be " ++ rule.debugStr⟩

/-- The `Expression` enum of `model.rs`. -/
inductive Expression where
  | Terminal (name : String) (value : Option String)
  | NonTerminal (name : String) (children : List Expression)

/-- Models `Expression::name`. -/
def Expression.name : Expression → String
  | .Terminal n _ => n
  | .NonTerminal n _ => n

mutual

/-- Models `Expression::try_from_sexpr`: decode a pre-parsed S-expression
pair into an `Expression`.  The first inner pair must be a `rule_name`
token; the optional second inner pair selects the variant. -/
def Expression.try_from_sexpr : Pair → Except ModelError Expression
  | .mk _ _ [] => .error ⟨"Missing rule name"⟩
  | .mk _ _ (first :: rest) =>
    match assert_rule first .rule_name with
    | .error e => .error e
    | .ok fp =>
      match rest with
      | [] => .ok (.Terminal fp.as_str none)
      | second :: _ =>
        match second with
        | .mk .sub_expressions _ cs =>
          match Expression.try_from_sexpr_list cs with
          | .ok children => .ok (.NonTerminal fp.as_str children)
          | .error e => .error e
        | .mk .rule_value_str _ vcs =>
          match vcs with
          | [] => .ok (.Terminal fp.as_str (some ""))
          | v :: _ =>
            match assert_rule v .rule_value with
            | .ok vp => .ok (.Terminal fp.as_str (some vp.as_str))
            | .error e => .error e
        | .mk other _ _ => .error ⟨"Unexpected rule " ++ other.debugStr⟩

/-- Models the `pair.into_inner().map(try_from_sexpr).collect::<Result<Vec<_>,_>>()`
step: decode each pair in order, stopping at the first error. -/
def Expression.try_from_sexpr_list : List Pair → Except ModelError (List Expression)
  | [] => .ok []
  | p :: ps =>
    match Expression.try_from_sexpr p with
    | .error e => .error e
    | .ok e =>
      match Expression.try_from_sexpr_list ps with
      | .error e2 => .error e2
      | .ok es => .ok (e :: es)

end

/-- Models a pest `Pair<'a, R>` for a generic `R: RuleType` as consumed by
`Expression::try_from_code`: `ruleName` stands for the string
`format!("{:?}", pair.as_rule())`, `str` for `as_str`, `children` for
`into_inner` in order. -/
inductive CodePair where
  | mk (ruleName : String) (str : String) (children : List CodePair)

mutual

/-- Models `Expression::try_from_code`: adapt a node of an arbitrary
parser's output.  Zero children gives a `Terminal` whose value is the
matched text; otherwise a `NonTerminal` with the adapted children. -/
def Expression.try_from_code : CodePair → Except ModelError Expression
  | .mk name value cs =>
    match Expression.try_from_code_list cs with
    | .ok children =>
      if children.isEmpty then
        .ok (.Terminal name (some value))
      else
        .ok (.NonTerminal name children)
    | .error e => .error e

/-- Models the `pair.into_inner().map(try_from_code).collect::<Result<Vec<_>,_>>()`
step of `try_from_code`. -/
def Expression.try_from_code_list : List CodePair → Except ModelError (List Expression)
  | [] => .ok []
  | p :: ps =>
    match Expression.try_from_code p with
    | .error e => .error e
    | .ok e =>
      match Expression.try_from_code_list ps with
      | .error e2 => .error e2
      | .ok es => .ok (e :: es)

end

/-- Models the `colored::Color` enum (foreground colors); only the ANSI code
distinguishes the variants here. -/
inductive Color where
  | red
  | green
  | blue
deriving DecidableEq

/-- Foreground ANSI code of a color, as in the colored crate. -/
def Color.ansiCode : Color → String
  | .red => "31"
  | .green => "32"
  | .blue => "34"

/-- Models the colored crate's `ColoredString`: the plain input text plus
the requested foreground color.  The crate stores no escaped text; ANSI
escape sequences exist only in its `Display` rendering (`displayStr`
below), so any `&str` borrowed from a `ColoredString` — its `Deref` to
`str` and hence the `.as_ref()` call in `model.rs` — is the unstyled
`input`. -/
structure ColoredString where
  input : String
  fgcolor : Color

/-- Models `Colorize::color`, `s.color(c)`: build a `ColoredString`. -/
def strColor (s : String) (c : Color) : ColoredString := ⟨s, c⟩

/-- Models the `.as_ref()` (via `Deref<Target = str>`) on a `ColoredString`:
the plain input, with no escape sequences. -/
def ColoredString.as_ref (cs : ColoredString) : String := cs.input

/-- Models `<ColoredString as Display>::fmt`: the input wrapped in the ANSI
foreground escape for the color and the reset sequence.  `model.rs` never
goes through `Display` (it writes `.as_ref()`), so this styled form never
reaches the sink; it is kept to state what styling would look like. -/
def ColoredString.displayStr (cs : ColoredString) : String :=
  "\x1b[" ++ cs.fgcolor.ansiCode ++ "m" ++ cs.input ++ "\x1b[0m"

/-- The `ExpressionFormatter` of `model.rs`.  Its `writer: &'a mut dyn Write`
is modelled by `out`, the ordered list of strings the sink has received, one
entry per `write_str`/`write_char` call reaching the sink. -/
structure ExpressionFormatter where
  out : List String
  indent : String
  level : Nat
  color : Option Color

/-- Models `ExpressionFormatter::from_defaults` (fresh sink, two-space
indent, level 0, no color). -/
def ExpressionFormatter.from_defaults : ExpressionFormatter :=
  { out := [], indent := "  ", level := 0, color := none }

/-- One write call received by the sink (`self.writer.write_str` /
`self.writer.write_char`). -/
def ExpressionFormatter.sink_write (f : ExpressionFormatter) (s : String) :
    ExpressionFormatter :=
  { f with out := f.out ++ [s] }

/-- Models `ExpressionFormatter::write_indent`: the loop
`for _ in 0..self.level { self.writer.write_str(self.indent) }`, i.e. `level`
sink writes of the indent unit, bypassing the color. -/
def ExpressionFormatter.write_indent (f : ExpressionFormatter) :
    ExpressionFormatter :=
  { f with out := f.out ++ List.replicate f.level f.indent }

/-- Models `ExpressionFormatter::write_char`: with a color configured the
source passes `c.to_string().color(color).as_ref()` to the sink — and
`as_ref` on a `ColoredString` is its plain input, so the character reaches
the sink unstyled in both branches. -/
def ExpressionFormatter.write_char (f : ExpressionFormatter) (c : Char) :
    ExpressionFormatter :=
  match f.color with
  | some color => f.sink_write (strColor c.toString color).as_ref
  | none => f.sink_write c.toString

/-- Models `ExpressionFormatter::write_newline`: `self.writer.write_char('\n')`,
a raw sink write that bypasses the color. -/
def ExpressionFormatter.write_newline (f : ExpressionFormatter) :
    ExpressionFormatter :=
  f.sink_write "\n"

/-- Models `ExpressionFormatter::write_str`: with a color configured the
source passes `s.color(color).as_ref()` to the sink — the plain input of
the `ColoredString`, so the string reaches the sink unstyled in both
branches. -/
def ExpressionFormatter.write_str (f : ExpressionFormatter) (s : String) :
    ExpressionFormatter :=
  match f.color with
  | some color => f.sink_write (strColor s color).as_ref
  | none => f.sink_write s

mutual

/-- Models `ExpressionFormatter::fmt`. -/
def ExpressionFormatter.fmt (f : ExpressionFormatter) :
    Expression → ExpressionFormatter
  | .Terminal name value =>
    let f1 := f.write_indent.write_char '('
    let f2 := f1.write_str name
    let f3 := match value with
      | some v => (f2.write_str (": ")).write_str v
      | none => f2
    f3.write_char ')'
  | .NonTerminal name children =>
    if children.isEmpty then
      (((f.write_indent.write_char '(').write_str name).write_char ')')
    else
      let f1 := ((f.write_indent.write_char '(').write_str name).write_newline
      let f2 := { f1 with level := f1.level + 1 }
      let f3 := ExpressionFormatter.fmt_children f2 children
      let f4 := { f3 with level := f3.level - 1 }
      (f4.write_indent.write_char ')')

/-- Models the child loop of `fmt`:
`for child in children { self.fmt(child)?; self.write_newline()?; }`. -/
def ExpressionFormatter.fmt_children (f : ExpressionFormatter) :
    List Expression → ExpressionFormatter
  | [] => f
  | c :: cs =>
    ExpressionFormatter.fmt_children ((f.fmt c).write_newline) cs

end

/-- Models `impl Display for Expression`: render with a default formatter
over a fresh sink and read the text the sink received. -/
def Expression.displayStr (e : Expression) : String :=
  String.join (ExpressionFormatter.from_defaults.fmt e).out

/-- The writes `fmt` performs on a fresh sink for a given indent unit, color
and starting level; observation of the formatter used by the theorems. -/
def emit (ind : String) (c : Option Color) (L : Nat) (e : Expression) :
    List String :=
  (ExpressionFormatter.fmt { out := [], indent := ind, level := L, color := c } e).out

/-- The writes the child loop of `fmt` performs on a fresh sink. -/
def emitChildren (ind : String) (c : Option Color) (L : Nat)
    (cs : List Expression) : List String :=
  (ExpressionFormatter.fmt_children { out := [], indent := ind, level := L, color := c } cs).out

/-- Models Rust's `str::trim` (an external std function): drop leading and
trailing whitespace characters.  Executable over the character list, unlike
`String.trim` whose well-founded recursion the kernel cannot evaluate. -/
def strTrim (s : String) : String :=
  ⟨((s.data.dropWhile Char.isWhitespace).reverse.dropWhile Char.isWhitespace).reverse⟩

/-- The `TestCase` struct of `model.rs`. -/
structure TestCase where
  name : String
  code : String
  expression : Expression

/-- Models `TestCase::try_from_pair`: take the test name, the code block
(divider then code) and the expression section in order, trimming the name
and code text and decoding the expression via `Expression::try_from_sexpr`. -/
def TestCase.try_from_pair (pair : Pair) : Except ModelError TestCase :=
  match pair.into_inner with
  | [] => .error ⟨"Missing test name"⟩
  | namePair :: rest1 =>
    match assert_rule namePair .test_name with
    | .error e => .error e
    | .ok np =>
      let name := strTrim np.as_str
      match rest1 with
      | [] => .error ⟨"Missing code block"⟩
      | cbPair :: rest2 =>
        match assert_rule cbPair .code_block with
        | .error e => .error e
        | .ok cb =>
          match cb.into_inner with
          | [] => .error ⟨"Missing div"⟩
          | divPair :: cbRest =>
            match assert_rule divPair .div with
            | .error e => .error e
            | .ok _ =>
              match cbRest with
              | [] => .error ⟨"Missing code"⟩
              | codePair :: _ =>
                match assert_rule codePair .code with
                | .error e => .error e
                | .ok cp =>
                  let code := strTrim cp.as_str
                  match rest2 with
                  | [] => .error ⟨"Missing expression"⟩
                  | exprPair :: _ =>
                    match assert_rule exprPair .expression with
                    | .error e => .error e
                    | .ok ep =>
                      match Expression.try_from_sexpr ep with
                      | .error e => .error e
                      | .ok expression => .ok ⟨name, code, expression⟩

mutual

/-- Modelled from the spec: conformance to the expected-tree grammar of §6,
`expr := "(" rule_name (value | "(" expr* ")")? ")"`, as produced by the
repository's external pest parser (its grammar file is not under `src/`).
An expression pair conforms when its first inner pair is a `rule_name`
token, and its optional second inner pair is either a `sub_expressions`
pair all of whose inner pairs conform, or a `rule_value_str` pair holding
at most one inner `rule_value` token. -/
def conformExpr : Pair → Bool
  | .mk _ _ [] => false
  | .mk _ _ (first :: rest) =>
    (first.as_rule == Rule.rule_name) &&
      match rest with
      | [] => true
      | [second] =>
        match second with
        | .mk .sub_expressions _ cs => conformExprList cs
        | .mk .rule_value_str _ [] => true
        | .mk .rule_value_str _ [v] => v.as_rule == Rule.rule_value
        | _ => false
      | _ => false

/-- Modelled from the spec: conformance of a list of expression pairs under
a `sub_expressions` pair. -/
def conformExprList : List Pair → Bool
  | [] => true
  | p :: ps => conformExpr p && conformExprList ps

end

/-- Modelled from the spec: the five test-file sections produced by the
outer grammar (name section, code block holding a divider and the code,
and the expression section), presence and node kinds only. -/
def sectionsOk : Pair → Bool
  | .mk _ _ (np :: cb :: ep :: _) =>
    (np.as_rule == Rule.test_name) &&
    (cb.as_rule == Rule.code_block) &&
    (match cb.into_inner with
     | dp :: cp :: _ => (dp.as_rule == Rule.div) && (cp.as_rule == Rule.code)
     | _ => false) &&
    (ep.as_rule == Rule.expression)
  | _ => false

mutual

/-- Modelled from the spec: every `rule_name` token the external grammar
produces matches a non-empty identifier, stated here as a predicate on the
pairs handed to the decoder. -/
def goodNamesPair : Pair → Bool
  | .mk r s cs => ((r != Rule.rule_name) || (s != "")) && goodNamesPairList cs

/-- Modelled from the spec: `goodNamesPair` on every pair of a list. -/
def goodNamesPairList : List Pair → Bool
  | [] => true
  | p :: ps => goodNamesPair p && goodNamesPairList ps

end

mutual

/-- Modelled from the spec: `format!("{:?}", rule)` of a `RuleType` value is
the variant's identifier, which is never empty; stated as a predicate on
the parser-output nodes handed to the adapter. -/
def goodNamesCode : CodePair → Bool
  | .mk n _ cs => (n != "") && goodNamesCodeList cs

/-- Modelled from the spec: `goodNamesCode` on every node of a list. -/
def goodNamesCodeList : List CodePair → Bool
  | [] => true
  | p :: ps => goodNamesCode p && goodNamesCodeList ps

end

mutual

/-- The invariant of §3: every node of an `Expression` tree carries a
non-empty name. -/
def namesNonEmpty : Expression → Bool
  | .Terminal n _ => n != ""
  | .NonTerminal n cs => (n != "") && namesNonEmptyList cs

/-- The non-empty-name invariant on every tree of a list. -/
def namesNonEmptyList : List Expression → Bool
  | [] => true
  | e :: es => namesNonEmpty e && namesNonEmptyList es

end

/-- What a unit of text becomes before reaching the sink, given the
formatter's optional color: the match both `write_char` and `write_str`
perform on `self.color`.  In the colored branch this is
`(strColor s color).as_ref`, the plain input — the styling is lost before
the write. -/
def styleWrite (c : Option Color) (s : String) : String :=
  match c with
  | some color => (strColor s color).as_ref
  | none => s

/-- Decidable observation that a sink-written unit carries color `c`'s ANSI
styling: it begins with `c`'s escape sequence and ends with the reset
sequence, as the `Display` rendering of a `ColoredString` does. -/
def carriesStyle (c : Color) (u : String) : Bool :=
  decide (("\x1b[" ++ c.ansiCode ++ "m").data <+: u.data) &&
  decide (("\x1b[0m").data <:+ u.data)

mutual

/-- Closed-form description of the writes `fmt` performs: the indent units,
the punctuation and content as passed through `styleWrite`, and the raw
newlines, in order.  Proved equal to the sink trace of `fmt` below
(`fmt_render`). -/
def render (ind : String) (c : Option Color) (L : Nat) : Expression → List String
  | .Terminal n v =>
    List.replicate L ind ++
      [styleWrite c ("("), styleWrite c n] ++
      (match v with
       | some s => [styleWrite c (": "), styleWrite c s]
       | none => []) ++
      [styleWrite c (")")]
  | .NonTerminal n [] =>
    List.replicate L ind ++
      [styleWrite c ("("), styleWrite c n, styleWrite c (")")]
  | .NonTerminal n (c0 :: cs) =>
    List.replicate L ind ++
      [styleWrite c ("("), styleWrite c n, "\n"] ++
      renderList ind c (L + 1) (c0 :: cs) ++
      List.replicate L ind ++ [styleWrite c (")")]

/-- Closed-form description of the writes of the child loop of `fmt`: each
child's writes followed by a raw newline. -/
def renderList (ind : String) (c : Option Color) (L : Nat) :
    List Expression → List String
  | [] => []
  | e :: es => render ind c L e ++ "\n" :: renderList ind c L es

end

mutual

theorem fmt_render : ∀ (e : Expression) (f : ExpressionFormatter),
    f.fmt e = ⟨f.out ++ render f.indent f.color f.level e, f.indent, f.level, f.color⟩
  | .Terminal n v, f => by
    obtain ⟨o, ind, L, c⟩ := f
    cases v <;> cases c <;>
      simp [ExpressionFormatter.fmt, render, styleWrite, ExpressionFormatter.write_indent,
        ExpressionFormatter.write_char, ExpressionFormatter.write_str,
        ExpressionFormatter.write_newline, ExpressionFormatter.sink_write, Char.toString] <;>
      exact ⟨rfl, rfl⟩
  | .NonTerminal n [], f => by
    obtain ⟨o, ind, L, c⟩ := f
    cases c <;>
      simp [ExpressionFormatter.fmt, render, styleWrite, ExpressionFormatter.write_indent,
        ExpressionFormatter.write_char, ExpressionFormatter.write_str,
        ExpressionFormatter.write_newline, ExpressionFormatter.sink_write, Char.toString] <;>
      exact ⟨rfl, rfl⟩
  | .NonTerminal n (c0 :: cs), f => by
    obtain ⟨o, ind, L, c⟩ := f
    have h1 := fmt_children_render (c0 :: cs)
    cases c <;>
      simp [ExpressionFormatter.fmt, render, styleWrite, ExpressionFormatter.write_indent,
        ExpressionFormatter.write_char, ExpressionFormatter.write_str,
        ExpressionFormatter.write_newline, ExpressionFormatter.sink_write, Char.toString, h1] <;>
      exact ⟨rfl, rfl⟩

theorem fmt_children_render : ∀ (cs : List Expression) (f : ExpressionFormatter),
    f.fmt_children cs =
      ⟨f.out ++ renderList f.indent f.color f.level cs, f.indent, f.level, f.color⟩
  | [], f => by
    simp [ExpressionFormatter.fmt_children, renderList]
  | c0 :: cs, f => by
    have h1 := fmt_render c0
    have h2 := fmt_children_render cs
    simp only [ExpressionFormatter.fmt_children, renderList, h1,
      ExpressionFormatter.write_newline, ExpressionFormatter.sink_write, h2]
    simp [List.append_assoc]

end

theorem emit_render (ind : String) (c : Option Color) (L : Nat) (e : Expression) :
    emit ind c L e = render ind c L e := by
  rw [emit, fmt_render]
  simp

theorem emitChildren_renderList (ind : String) (c : Option Color) (L : Nat)
    (cs : List Expression) :
    emitChildren ind c L cs = renderList ind c L cs := by
  rw [emitChildren, fmt_children_render]
  simp

/-- C10: a call to `fmt` leaves the formatter's `level`, `indent` and `color`
fields exactly as they were (the level increment and decrement of the
non-terminal branch cancel), and its only effect on the sink is to append
the writes described by `emit`. -/
theorem fmt_frame_spec (f : ExpressionFormatter) (e : Expression) :
    (f.fmt e).level = f.level ∧ (f.fmt e).indent = f.indent ∧
    (f.fmt e).color = f.color ∧
    (f.fmt e).out = f.out ++ emit f.indent f.color f.level e := by
  rw [fmt_render e f, emit_render]
  exact ⟨rfl, rfl, rfl, rfl⟩

/-- C5: for every name, a `Terminal` with no value and a `NonTerminal` with
no children drive the formatter identically, and both render to exactly
`(name)` under the default formatter — the formatter is deliberately
non-injective on these two shapes. -/
theorem format_collapse_spec (n : String) :
    (∀ f : ExpressionFormatter,
      f.fmt (.Terminal n none) = f.fmt (.NonTerminal n [])) ∧
    Expression.displayStr (.Terminal n none) = "(" ++ n ++ ")" ∧
    Expression.displayStr (.NonTerminal n []) = "(" ++ n ++ ")" := by
  refine ⟨fun f => ?_, ?_, ?_⟩
  · rw [fmt_render, fmt_render]
    simp [render]
  · simp only [Expression.displayStr]
    rw [fmt_render]
    apply String.ext
    simp [ExpressionFormatter.from_defaults, render, styleWrite]
  · simp only [Expression.displayStr]
    rw [fmt_render]
    apply String.ext
    simp [ExpressionFormatter.from_defaults, render, styleWrite]


theorem renderList_flatten (ind : String) (c : Option Color) (L : Nat)
    (cs : List Expression) :
    renderList ind c L cs =
      (cs.map (fun ch => render ind c L ch ++ ["\n"])).flatten := by
  induction cs with
  | nil => simp [renderList]
  | cons c0 cs ih => simp [renderList, ih]

theorem render_head (ind : String) (c : Option Color) (L : Nat) (e : Expression) :
    ∃ rest, render ind c L e = List.replicate L ind ++ styleWrite c ("(") :: rest := by
  cases e with
  | Terminal n v =>
    cases v with
    | none =>
      exact ⟨[styleWrite c n, styleWrite c (")")], by simp [render]⟩
    | some s =>
      exact ⟨[styleWrite c n, styleWrite c (": "), styleWrite c s, styleWrite c (")")],
        by simp [render]⟩
  | NonTerminal n cs =>
    cases cs with
    | nil => exact ⟨[styleWrite c n, styleWrite c (")")], by simp [render]⟩
    | cons c0 cs =>
      exact ⟨styleWrite c n :: "\n" ::
        (renderList ind c (L + 1) (c0 :: cs) ++ List.replicate L ind ++ [styleWrite c (")")]),
        by simp [render]⟩

/-- C6: rendering a `NonTerminal` with children at level `L` writes each
child at level `L + 1` — so each child's output starts with exactly `L + 1`
copies of the indent unit (hence `(L+1) * indent_unit` characters) — and
puts the closing parenthesis on a line prefixed with exactly `L` copies. -/
theorem format_indent_spec (ind : String) (col : Option Color) (L : Nat)
    (n : String) (cs : List Expression) (h : cs ≠ []) :
    (emit ind col L (.NonTerminal n cs) =
      List.replicate L ind ++
        [styleWrite col ("("), styleWrite col n, "\n"] ++
        (cs.map (fun ch => emit ind col (L + 1) ch ++ ["\n"])).flatten ++
        List.replicate L ind ++ [styleWrite col (")")]) ∧
    ∀ ch ∈ cs, ∃ rest,
      emit ind col (L + 1) ch =
        List.replicate (L + 1) ind ++ styleWrite col ("(") :: rest := by
  constructor
  · cases cs with
    | nil => exact absurd rfl h
    | cons c0 cs =>
      rw [emit_render]
      simp only [render]
      rw [renderList_flatten]
      simp [emit_render, List.append_assoc]
  · intro ch hch
    obtain ⟨rest, hr⟩ := render_head ind col (L + 1) ch
    exact ⟨rest, by rw [emit_render, hr]⟩

/-- Instantiation of `format_indent_spec` at a concrete one-child tree. -/
theorem format_indent_spec_witness :
    (emit ("--") (some Color.red) 1 (.NonTerminal ("a") [.Terminal ("b") none]) =
      List.replicate 1 ("--") ++
        [styleWrite (some Color.red) ("("), styleWrite (some Color.red) ("a"), "\n"] ++
        (([Expression.Terminal ("b") none]).map
          (fun ch => emit ("--") (some Color.red) (1 + 1) ch ++ ["\n"])).flatten ++
        List.replicate 1 ("--") ++ [styleWrite (some Color.red) (")")]) ∧
    ∀ ch ∈ [Expression.Terminal ("b") none], ∃ rest,
      emit ("--") (some Color.red) (1 + 1) ch =
        List.replicate (1 + 1) ("--") ++ styleWrite (some Color.red) ("(") :: rest :=
  format_indent_spec ("--") (some Color.red) 1 ("a") [.Terminal ("b") none]
    (by simp)

theorem styleWrite_id (c : Option Color) (s : String) : styleWrite c s = s := by
  cases c <;> rfl

mutual

theorem render_color_indep : ∀ (e : Expression) (ind : String)
    (c : Option Color) (L : Nat), render ind c L e = render ind none L e
  | .Terminal n v, ind, c, L => by
    cases v <;> simp [render, styleWrite_id]
  | .NonTerminal n [], ind, c, L => by
    simp [render, styleWrite_id]
  | .NonTerminal n (c0 :: cs), ind, c, L => by
    have h1 := renderList_color_indep (c0 :: cs) ind c (L + 1)
    simp [render, styleWrite_id, h1]

theorem renderList_color_indep : ∀ (cs : List Expression) (ind : String)
    (c : Option Color) (L : Nat), renderList ind c L cs = renderList ind none L cs
  | [], ind, c, L => by simp [renderList]
  | c0 :: cs, ind, c, L => by
    have h1 := render_color_indep c0 ind c L
    have h2 := renderList_color_indep cs ind c L
    simp [renderList, h1, h2]

end

/-- The `Display` rendering of a `ColoredString` would carry the styling in
the sense of `carriesStyle`; the source never writes it. -/
theorem coloredDisplay_carriesStyle (c : Color) (s : String) :
    carriesStyle c (strColor s c).displayStr = true := by
  simp only [carriesStyle, strColor, ColoredString.displayStr,
    Bool.and_eq_true, decide_eq_true_eq]
  constructor
  · exact ⟨(s ++ "\x1b[0m").data, by simp⟩
  · exact ⟨("\x1b[" ++ c.ansiCode ++ "m" ++ s).data, by simp⟩

/-- C7 as stated is false: with a color configured nothing the formatter
writes is styled, because the source passes `as_ref()` of the colored
string — the plain input — to the sink.  At this input both a structural
unit (the parenthesis) and a content unit (the name) appear in the sink
trace bare, carrying no ANSI styling. -/
theorem format_color_uniform_cex :
    ("(" ∈ emit ("  ") (some Color.red) 0 (.Terminal ("a") none)) ∧
    carriesStyle Color.red ("(") = false ∧
    ("a" ∈ emit ("  ") (some Color.red) 0 (.Terminal ("a") none)) ∧
    carriesStyle Color.red ("a") = false :=
  ⟨by decide, by decide, by decide, by decide⟩

/-- C7 amended: configuring a color has no effect on the bytes written.
The `as_ref()` borrow drops the styling before every `write_char`/`write_str`
(and `write_newline`/`write_indent` bypass the color in any case), so a
render with a color configured performs exactly the same sink writes as the
render without one. -/
theorem format_color_noop_spec (ind : String) (col : Color) (L : Nat)
    (e : Expression) :
    emit ind (some col) L e = emit ind none L e := by
  rw [emit_render, emit_render]
  exact render_color_indep e ind (some col) L

mutual

theorem try_from_code_total : ∀ (p : CodePair),
    ∃ e, Expression.try_from_code p = .ok e
  | .mk n s cs => by
    obtain ⟨es, hes, -⟩ := try_from_code_list_total cs
    by_cases hb : es.isEmpty = true
    · exact ⟨.Terminal n (some s), by simp [Expression.try_from_code, hes, hb]⟩
    · exact ⟨.NonTerminal n es, by simp [Expression.try_from_code, hes, hb]⟩

theorem try_from_code_list_total : ∀ (ps : List CodePair),
    ∃ es, Expression.try_from_code_list ps = .ok es ∧ es.length = ps.length
  | [] => ⟨[], rfl, rfl⟩
  | p :: ps => by
    obtain ⟨e, he⟩ := try_from_code_total p
    obtain ⟨es, hes, hl⟩ := try_from_code_list_total ps
    exact ⟨e :: es, by simp [Expression.try_from_code_list, he, hes], by simp [hl]⟩

end

/-- C1: the adapter's leaf/internal split is purely structural: a node with
zero children becomes a `Terminal` whose value is `Some` of the matched
text (never `None`, never an empty `NonTerminal`), and a node with one or
more children becomes a `NonTerminal` over the recursively adapted
children in order (so one child still yields a `NonTerminal`). -/
theorem try_from_code_shape_spec (n s : String) (cs : List CodePair) :
    ∃ es, Expression.try_from_code_list cs = .ok es ∧ es.length = cs.length ∧
      Expression.try_from_code (.mk n s cs) =
        (if cs.isEmpty then .ok (.Terminal n (some s)) else .ok (.NonTerminal n es)) := by
  obtain ⟨es, hes, hl⟩ := try_from_code_list_total cs
  refine ⟨es, hes, hl, ?_⟩
  cases cs with
  | nil =>
    have hnil : es = [] := List.length_eq_zero.mp (by simp [hl])
    subst hnil
    simp [Expression.try_from_code, hes]
  | cons p ps =>
    have hne : es.isEmpty = false := by
      cases es with
      | nil => simp at hl
      | cons a as => rfl
    simp [Expression.try_from_code, hes, hne]

/-- C2: the adapter is total — for every parser-output node it returns `Ok`
with an `Expression`, despite its `Result` return type. -/
theorem try_from_code_total_spec (p : CodePair) :
    ∃ e, Expression.try_from_code p = .ok e :=
  try_from_code_total p

mutual

theorem conform_ok : ∀ (p : Pair), conformExpr p = true →
    ∃ e, Expression.try_from_sexpr p = .ok e
  | .mk _ _ [], h => by simp [conformExpr] at h
  | .mk r s [first], h => by
    unfold conformExpr at h
    simp only [Bool.and_eq_true, beq_iff_eq] at h
    exact ⟨.Terminal first.as_str none,
      by simp [Expression.try_from_sexpr, assert_rule, h.1]⟩
  | .mk r s (first :: .mk r2 s2 cs2 :: rest2), h => by
    unfold conformExpr at h
    simp only [Bool.and_eq_true, beq_iff_eq] at h
    obtain ⟨h1, h2⟩ := h
    cases rest2 with
    | cons x xs => simp at h2
    | nil =>
      cases r2 with
      | sub_expressions =>
        obtain ⟨es, hes⟩ := conform_list_ok cs2 (by simpa using h2)
        exact ⟨.NonTerminal first.as_str es,
          by simp [Expression.try_from_sexpr, assert_rule, h1, hes]⟩
      | rule_value_str =>
        cases cs2 with
        | nil =>
          exact ⟨.Terminal first.as_str (some ""),
            by simp [Expression.try_from_sexpr, assert_rule, h1]⟩
        | cons v vs =>
          cases vs with
          | cons y ys => simp at h2
          | nil =>
            have hv : v.as_rule = Rule.rule_value := by simpa using h2
            exact ⟨.Terminal first.as_str (some v.as_str),
              by simp [Expression.try_from_sexpr, assert_rule, h1, hv]⟩
      | test_name => simp at h2
      | code_block => simp at h2
      | div => simp at h2
      | code => simp at h2
      | expression => simp at h2
      | rule_name => simp at h2
      | rule_value => simp at h2
termination_by p _ => sizeOf p
decreasing_by all_goals (simp_wf; omega)

theorem conform_list_ok : ∀ (ps : List Pair), conformExprList ps = true →
    ∃ es, Expression.try_from_sexpr_list ps = .ok es
  | [], _ => ⟨[], rfl⟩
  | p :: ps, h => by
    simp only [conformExprList, Bool.and_eq_true] at h
    obtain ⟨e, he⟩ := conform_ok p h.1
    obtain ⟨es, hes⟩ := conform_list_ok ps h.2
    exact ⟨e :: es, by simp [Expression.try_from_sexpr_list, he, hes]⟩
termination_by ps _ => sizeOf ps
decreasing_by all_goals (simp_wf <;> omega)

end

/-- C3: on every pair conforming to the expected-tree grammar the decoder
succeeds, and the variant is fixed by the second inner pair alone: a
`sub_expressions` second child gives `NonTerminal` (even when the decoded
children list is empty), a `rule_value_str` second child with no inner
token gives `Terminal (some "")`, and no second child gives
`Terminal none`. -/
theorem try_from_sexpr_conform_spec (p : Pair) (h : conformExpr p = true) :
    ∃ e, Expression.try_from_sexpr p = .ok e ∧
      (match p.into_inner with
       | _ :: (Pair.mk Rule.sub_expressions _ _) :: _ =>
         ∃ n cs, e = Expression.NonTerminal n cs
       | _ :: (Pair.mk Rule.rule_value_str _ []) :: _ =>
         ∃ n, e = Expression.Terminal n (some "")
       | [_] => ∃ n, e = Expression.Terminal n none
       | _ => True) := by
  obtain ⟨r, s, cs⟩ := p
  cases cs with
  | nil => simp [conformExpr] at h
  | cons first rest =>
    unfold conformExpr at h
    simp only [Bool.and_eq_true, beq_iff_eq] at h
    obtain ⟨h1, h2⟩ := h
    cases rest with
    | nil =>
      exact ⟨.Terminal first.as_str none,
        by simp [Expression.try_from_sexpr, assert_rule, h1],
        ⟨first.as_str, rfl⟩⟩
    | cons second rest2 =>
      cases rest2 with
      | cons x xs => simp at h2
      | nil =>
        obtain ⟨r2, s2, cs2⟩ := second
        cases r2 with
        | sub_expressions =>
          obtain ⟨es, hes⟩ := conform_list_ok cs2 (by simpa using h2)
          exact ⟨.NonTerminal first.as_str es,
            by simp [Expression.try_from_sexpr, assert_rule, h1, hes],
            ⟨first.as_str, es, rfl⟩⟩
        | rule_value_str =>
          cases cs2 with
          | nil =>
            exact ⟨.Terminal first.as_str (some ""),
              by simp [Expression.try_from_sexpr, assert_rule, h1],
              ⟨first.as_str, rfl⟩⟩
          | cons v vs =>
            cases vs with
            | cons y ys => simp at h2
            | nil =>
              have hv : v.as_rule = Rule.rule_value := by simpa using h2
              exact ⟨.Terminal first.as_str (some v.as_str),
                by simp [Expression.try_from_sexpr, assert_rule, h1, hv],
                trivial⟩
        | test_name => simp at h2
        | code_block => simp at h2
        | div => simp at h2
        | code => simp at h2
        | expression => simp at h2
        | rule_name => simp at h2
        | rule_value => simp at h2

/-- Instantiation of `try_from_sexpr_conform_spec` on a conforming pair
whose `sub_expressions` child is empty: the result is still `NonTerminal`. -/
theorem try_from_sexpr_conform_spec_witness :
    ∃ e, Expression.try_from_sexpr
        (.mk .expression "" [.mk .rule_name ("a") [], .mk .sub_expressions "" []]) =
        .ok e ∧
      ∃ n cs, e = Expression.NonTerminal n cs :=
  try_from_sexpr_conform_spec
    (.mk .expression "" [.mk .rule_name ("a") [], .mk .sub_expressions "" []])
    (by decide)

/-- C4 amended: a missing first child fails with exactly `Missing rule
name`; a first child of the wrong kind fails with the `assert_rule` message
naming the expected `rule_name` kind; a second child of any kind other than
`sub_expressions` or `rule_value_str` fails with `Unexpected rule ‹kind›`
(the code's actual text, which names the offending rule kind only — not the
spec's `unexpected rule kind: …` wording and not a rendering of the whole
node).  In each case the `Except.error` result carries no `Expression`. -/
theorem try_from_sexpr_error_spec :
    (∀ r s, Expression.try_from_sexpr (.mk r s []) =
      .error ⟨"Missing rule name"⟩) ∧
    (∀ r s first rest, first.as_rule ≠ Rule.rule_name →
      Expression.try_from_sexpr (.mk r s (first :: rest)) =
        .error ⟨"Expected pair " ++ first.debugStr ++ " rule to be " ++
          Rule.rule_name.debugStr⟩) ∧
    (∀ r s first second rest, first.as_rule = Rule.rule_name →
      second.as_rule ≠ Rule.sub_expressions →
      second.as_rule ≠ Rule.rule_value_str →
      Expression.try_from_sexpr (.mk r s (first :: second :: rest)) =
        .error ⟨"Unexpected rule " ++ second.as_rule.debugStr⟩) := by
  refine ⟨fun r s => rfl, ?_, ?_⟩
  · intro r s first rest hne
    cases rest with
    | nil => simp [Expression.try_from_sexpr, assert_rule, hne]
    | cons second rest2 =>
      obtain ⟨r2, s2, cs2⟩ := second
      cases r2 <;> simp [Expression.try_from_sexpr, assert_rule, hne]
  · intro r s first second rest h1 hsub hval
    obtain ⟨r2, s2, cs2⟩ := second
    simp only [Pair.as_rule] at hsub hval ⊢
    cases r2 <;>
      first
        | exact absurd rfl hsub
        | exact absurd rfl hval
        | simp [Expression.try_from_sexpr, assert_rule, h1]

/-- Instantiation of `try_from_sexpr_error_spec` at the three error
shapes. -/
theorem try_from_sexpr_error_spec_witness :
    (Expression.try_from_sexpr (.mk .expression "" []) =
      .error ⟨"Missing rule name"⟩) ∧
    (Expression.try_from_sexpr (.mk .expression "" [.mk .div ("=") []]) =
      .error ⟨"Expected pair " ++ (Pair.mk .div ("=") []).debugStr ++
        " rule to be " ++ Rule.rule_name.debugStr⟩) ∧
    (Expression.try_from_sexpr
        (.mk .expression "" [.mk .rule_name ("a") [], .mk .div ("=") []]) =
      .error ⟨"Unexpected rule " ++ (Pair.mk .div ("=") []).as_rule.debugStr⟩) :=
  ⟨try_from_sexpr_error_spec.1 .expression "",
   try_from_sexpr_error_spec.2.1 .expression "" (.mk .div ("=") []) [] (by decide),
   try_from_sexpr_error_spec.2.2 .expression "" (.mk .rule_name ("a") [])
     (.mk .div ("=") []) [] rfl (by decide) (by decide)⟩

/-- C4 as stated is false in its message form: on a node whose second child
is a `div` pair the decoder's error message is exactly `Unexpected rule
div`, and the text `unexpected rule kind:` claimed by the spec occurs
nowhere in it. -/
theorem try_from_sexpr_msg_form_cex :
    (Expression.try_from_sexpr
        (.mk .expression "" [.mk .rule_name ("a") [], .mk .div ("=") []]) =
      .error ⟨"Unexpected rule div"⟩) ∧
    decide (("unexpected rule kind:").data <:+: ("Unexpected rule div").data) = false :=
  ⟨rfl, by decide⟩

theorem goodNamesPair_eq (r : Rule) (s : String) (cs : List Pair) :
    goodNamesPair (.mk r s cs) =
      (((r != Rule.rule_name) || (s != "")) && goodNamesPairList cs) := rfl

theorem goodNamesPairList_nil : goodNamesPairList [] = true := rfl

theorem goodNamesPairList_cons (p : Pair) (ps : List Pair) :
    goodNamesPairList (p :: ps) = (goodNamesPair p && goodNamesPairList ps) := rfl

theorem goodNamesCode_eq (n s : String) (cs : List CodePair) :
    goodNamesCode (.mk n s cs) = ((n != "") && goodNamesCodeList cs) := rfl

theorem goodNamesCodeList_cons (p : CodePair) (ps : List CodePair) :
    goodNamesCodeList (p :: ps) = (goodNamesCode p && goodNamesCodeList ps) := rfl

theorem namesNonEmpty_terminal (n : String) (v : Option String) :
    namesNonEmpty (.Terminal n v) = (n != "") := rfl

theorem namesNonEmpty_nonterminal (n : String) (cs : List Expression) :
    namesNonEmpty (.NonTerminal n cs) = ((n != "") && namesNonEmptyList cs) := rfl

theorem namesNonEmptyList_nil : namesNonEmptyList [] = true := rfl

theorem namesNonEmptyList_cons (e : Expression) (es : List Expression) :
    namesNonEmptyList (e :: es) = (namesNonEmpty e && namesNonEmptyList es) := rfl

mutual

theorem sexpr_names_ok : ∀ (p : Pair), goodNamesPair p = true →
    ∀ e, Expression.try_from_sexpr p = .ok e → namesNonEmpty e = true
  | .mk r s [], _, e, he => by simp [Expression.try_from_sexpr] at he
  | .mk r s [first], hg, e, he => by
    obtain ⟨r1, s1, cs1⟩ := first
    by_cases h1 : r1 = Rule.rule_name
    · subst h1
      unfold Expression.try_from_sexpr at he
      simp [assert_rule, Pair.as_rule, Pair.as_str] at he
      rw [goodNamesPair_eq, goodNamesPairList_cons, goodNamesPair_eq] at hg
      simp only [Bool.and_eq_true, Bool.or_eq_true, bne_iff_ne, ne_eq,
        not_true_eq_false, false_or] at hg
      rw [← he, namesNonEmpty_terminal]
      simp [hg.2.1.1]
    · unfold Expression.try_from_sexpr at he
      simp [assert_rule, Pair.as_rule, h1] at he
  | .mk r s (first :: .mk r2 s2 cs2 :: rest2), hg, e, he => by
    obtain ⟨r1, s1, cs1⟩ := first
    by_cases h1 : r1 = Rule.rule_name
    case neg =>
      unfold Expression.try_from_sexpr at he
      simp [assert_rule, Pair.as_rule, h1] at he
    case pos =>
    subst h1
    rw [goodNamesPair_eq, goodNamesPairList_cons, goodNamesPair_eq,
      goodNamesPairList_cons, goodNamesPair_eq] at hg
    simp only [Bool.and_eq_true, Bool.or_eq_true, bne_iff_ne, ne_eq,
      not_true_eq_false, false_or] at hg
    have hs1 : s1 ≠ "" := hg.2.1.1
    cases r2 with
    | sub_expressions =>
      cases hres : Expression.try_from_sexpr_list cs2 with
      | error e2 =>
        unfold Expression.try_from_sexpr at he
        simp [assert_rule, Pair.as_rule, hres] at he
      | ok es =>
        unfold Expression.try_from_sexpr at he
        simp [assert_rule, Pair.as_rule, Pair.as_str, hres] at he
        have hlist : goodNamesPairList cs2 = true := by
          have h2 := hg.2.2.1
          simp only [Bool.or_eq_true, Bool.and_eq_true] at h2
          exact h2.2
        have hrec := sexpr_names_list_ok cs2 hlist es hres
        rw [← he, namesNonEmpty_nonterminal]
        simp [hs1, hrec]
    | rule_value_str =>
      cases cs2 with
      | nil =>
        unfold Expression.try_from_sexpr at he
        simp [assert_rule, Pair.as_rule, Pair.as_str] at he
        rw [← he, namesNonEmpty_terminal]
        simp [hs1]
      | cons v vs =>
        obtain ⟨rv, sv, csv⟩ := v
        by_cases hv : rv = Rule.rule_value
        · subst hv
          unfold Expression.try_from_sexpr at he
          simp [assert_rule, Pair.as_rule, Pair.as_str] at he
          rw [← he, namesNonEmpty_terminal]
          simp [hs1]
        · unfold Expression.try_from_sexpr at he
          simp [assert_rule, Pair.as_rule, hv] at he
    | test_name =>
      unfold Expression.try_from_sexpr at he
      simp [assert_rule, Pair.as_rule] at he
    | code_block =>
      unfold Expression.try_from_sexpr at he
      simp [assert_rule, Pair.as_rule] at he
    | div =>
      unfold Expression.try_from_sexpr at he
      simp [assert_rule, Pair.as_rule] at he
    | code =>
      unfold Expression.try_from_sexpr at he
      simp [assert_rule, Pair.as_rule] at he
    | expression =>
      unfold Expression.try_from_sexpr at he
      simp [assert_rule, Pair.as_rule] at he
    | rule_name =>
      unfold Expression.try_from_sexpr at he
      simp [assert_rule, Pair.as_rule] at he
    | rule_value =>
      unfold Expression.try_from_sexpr at he
      simp [assert_rule, Pair.as_rule] at he
termination_by p _ _ _ => sizeOf p
decreasing_by all_goals (simp_wf; omega)

theorem sexpr_names_list_ok : ∀ (ps : List Pair), goodNamesPairList ps = true →
    ∀ es, Expression.try_from_sexpr_list ps = .ok es → namesNonEmptyList es = true
  | [], _, es, he => by
    simp [Expression.try_from_sexpr_list] at he
    subst he
    rfl
  | p :: ps, hg, es, he => by
    rw [goodNamesPairList_cons] at hg
    simp only [Bool.and_eq_true] at hg
    cases hres : Expression.try_from_sexpr p with
    | error e1 => simp [Expression.try_from_sexpr_list, hres] at he
    | ok e1 =>
      cases hres2 : Expression.try_from_sexpr_list ps with
      | error e2 => simp [Expression.try_from_sexpr_list, hres, hres2] at he
      | ok es1 =>
        simp [Expression.try_from_sexpr_list, hres, hres2] at he
        have g1 := sexpr_names_ok p hg.1 e1 hres
        have g2 := sexpr_names_list_ok ps hg.2 es1 hres2
        rw [← he, namesNonEmptyList_cons]
        simp [g1, g2]
termination_by ps _ _ _ => sizeOf ps
decreasing_by all_goals (simp_wf <;> omega)

end

mutual

theorem code_names_ok : ∀ (p : CodePair), goodNamesCode p = true →
    ∀ e, Expression.try_from_code p = .ok e → namesNonEmpty e = true
  | .mk n s cs, hg, e, he => by
    rw [goodNamesCode_eq] at hg
    simp only [Bool.and_eq_true] at hg
    cases hres : Expression.try_from_code_list cs with
    | error e2 => simp [Expression.try_from_code, hres] at he
    | ok es =>
      have hlist := code_names_list_ok cs hg.2 es hres
      by_cases hb : es.isEmpty = true
      · simp [Expression.try_from_code, hres, hb] at he
        rw [← he, namesNonEmpty_terminal]
        simp [hg.1]
      · simp [Expression.try_from_code, hres, hb] at he
        rw [← he, namesNonEmpty_nonterminal]
        simp [hg.1, hlist]
termination_by p _ _ _ => sizeOf p
decreasing_by all_goals simp_wf

theorem code_names_list_ok : ∀ (ps : List CodePair), goodNamesCodeList ps = true →
    ∀ es, Expression.try_from_code_list ps = .ok es → namesNonEmptyList es = true
  | [], _, es, he => by
    simp [Expression.try_from_code_list] at he
    subst he
    rfl
  | p :: ps, hg, es, he => by
    rw [goodNamesCodeList_cons] at hg
    simp only [Bool.and_eq_true] at hg
    cases hres : Expression.try_from_code p with
    | error e1 => simp [Expression.try_from_code_list, hres] at he
    | ok e1 =>
      cases hres2 : Expression.try_from_code_list ps with
      | error e2 => simp [Expression.try_from_code_list, hres, hres2] at he
      | ok es1 =>
        simp [Expression.try_from_code_list, hres, hres2] at he
        have g1 := code_names_ok p hg.1 e1 hres
        have g2 := code_names_list_ok ps hg.2 es1 hres2
        rw [← he, namesNonEmptyList_cons]
        simp [g1, g2]
termination_by ps _ _ _ => sizeOf ps
decreasing_by all_goals (simp_wf <;> omega)

end

/-- C9: under the grammar's guarantees — `rule_name` tokens match non-empty
identifiers, and the Debug rendering of a rule variant is its non-empty
identifier — every `Expression` either constructor produces carries a
non-empty name, recursively at every node of the tree. -/
theorem expression_names_spec :
    (∀ (p : Pair) (e : Expression), goodNamesPair p = true →
      Expression.try_from_sexpr p = .ok e → namesNonEmpty e = true) ∧
    (∀ (cp : CodePair) (e : Expression), goodNamesCode cp = true →
      Expression.try_from_code cp = .ok e → namesNonEmpty e = true) :=
  ⟨fun p e hg he => sexpr_names_ok p hg e he,
   fun cp e hg he => code_names_ok cp hg e he⟩

/-- Instantiation of `expression_names_spec` on both constructors. -/
theorem expression_names_spec_witness :
    namesNonEmpty (Expression.Terminal ("a") none) = true ∧
    namesNonEmpty (Expression.Terminal ("r") (some ("x"))) = true :=
  ⟨expression_names_spec.1 (.mk .expression "" [.mk .rule_name ("a") []])
      (.Terminal ("a") none) (by decide) rfl,
   expression_names_spec.2 (.mk ("r") ("x") []) (.Terminal ("r") (some ("x")))
      (by decide) rfl⟩


theorem as_rule_mk (r : Rule) (s : String) (cs : List Pair) :
    (Pair.mk r s cs).as_rule = r := rfl

theorem as_str_mk (r : Rule) (s : String) (cs : List Pair) :
    (Pair.mk r s cs).as_str = s := rfl

theorem into_inner_mk (r : Rule) (s : String) (cs : List Pair) :
    (Pair.mk r s cs).into_inner = cs := rfl

/-- C8: on a well-formed test-file section pair, `try_from_pair` builds the
`TestCase` from the whitespace-trimmed name text, the whitespace-trimmed
code text, and the expression section decoded by
`Expression::try_from_sexpr`; and whenever any expected section is missing
or has the wrong node kind it returns a model error and no `TestCase`. -/
theorem try_from_pair_spec :
    (∀ (r : Rule) (s : String) (np cb ep : Pair) (rest : List Pair)
        (dp cp : Pair) (cbRest : List Pair) (e : Expression),
      np.as_rule = Rule.test_name →
      cb.as_rule = Rule.code_block →
      cb.into_inner = dp :: cp :: cbRest →
      dp.as_rule = Rule.div →
      cp.as_rule = Rule.code →
      ep.as_rule = Rule.expression →
      Expression.try_from_sexpr ep = .ok e →
      TestCase.try_from_pair (.mk r s (np :: cb :: ep :: rest)) =
        .ok ⟨strTrim np.as_str, strTrim cp.as_str, e⟩) ∧
    (∀ (p : Pair), sectionsOk p = false →
      ∃ m, TestCase.try_from_pair p = .error m) := by
  constructor
  · intro r s np cb ep rest dp cp cbRest e hnp hcb hcbi hdp hcp hep hse
    obtain ⟨rc, sc, csc⟩ := cb
    rw [into_inner_mk] at hcbi
    subst hcbi
    rw [as_rule_mk] at hcb
    subst hcb
    simp [TestCase.try_from_pair, into_inner_mk, as_rule_mk, assert_rule,
      hnp, hdp, hcp, hep, hse]
  · intro p hsec
    obtain ⟨r, s, cs⟩ := p
    cases cs with
    | nil =>
      exact ⟨⟨"Missing test name"⟩, by simp [TestCase.try_from_pair, into_inner_mk]⟩
    | cons np rest1 =>
      by_cases hnp : np.as_rule = Rule.test_name
      case neg =>
        exact ⟨⟨"Expected pair " ++ np.debugStr ++ " rule to be " ++
            Rule.test_name.debugStr⟩,
          by simp [TestCase.try_from_pair, into_inner_mk, assert_rule, hnp]⟩
      case pos =>
      cases rest1 with
      | nil =>
        exact ⟨⟨"Missing code block"⟩,
          by simp [TestCase.try_from_pair, into_inner_mk, assert_rule, hnp]⟩
      | cons cb rest2 =>
        obtain ⟨rc, sc, csc⟩ := cb
        by_cases hcb : rc = Rule.code_block
        case neg =>
          exact ⟨⟨"Expected pair " ++ (Pair.mk rc sc csc).debugStr ++ " rule to be " ++
              Rule.code_block.debugStr⟩,
            by simp [TestCase.try_from_pair, into_inner_mk, as_rule_mk,
              assert_rule, hnp, hcb]⟩
        case pos =>
        subst hcb
        cases csc with
        | nil =>
          exact ⟨⟨"Missing div"⟩,
            by simp [TestCase.try_from_pair, into_inner_mk, as_rule_mk,
              assert_rule, hnp]⟩
        | cons dp cbr =>
          by_cases hdp : dp.as_rule = Rule.div
          case neg =>
            exact ⟨⟨"Expected pair " ++ dp.debugStr ++ " rule to be " ++
                Rule.div.debugStr⟩,
              by simp [TestCase.try_from_pair, into_inner_mk, as_rule_mk,
                assert_rule, hnp, hdp]⟩
          case pos =>
          cases cbr with
          | nil =>
            exact ⟨⟨"Missing code"⟩,
              by simp [TestCase.try_from_pair, into_inner_mk, as_rule_mk,
                assert_rule, hnp, hdp]⟩
          | cons cp cbr2 =>
            by_cases hcp : cp.as_rule = Rule.code
            case neg =>
              exact ⟨⟨"Expected pair " ++ cp.debugStr ++ " rule to be " ++
                  Rule.code.debugStr⟩,
                by simp [TestCase.try_from_pair, into_inner_mk, as_rule_mk,
                  assert_rule, hnp, hdp, hcp]⟩
            case pos =>
            cases rest2 with
            | nil =>
              exact ⟨⟨"Missing expression"⟩,
                by simp [TestCase.try_from_pair, into_inner_mk, as_rule_mk,
                  assert_rule, hnp, hdp, hcp]⟩
            | cons ep rest3 =>
              by_cases hep : ep.as_rule = Rule.expression
              case neg =>
                exact ⟨⟨"Expected pair " ++ ep.debugStr ++ " rule to be " ++
                    Rule.expression.debugStr⟩,
                  by simp [TestCase.try_from_pair, into_inner_mk, as_rule_mk,
                    assert_rule, hnp, hdp, hcp, hep]⟩
              case pos =>
              exfalso
              have hok : sectionsOk
                  (.mk r s (np :: .mk Rule.code_block sc (dp :: cp :: cbr2) :: ep :: rest3)) =
                  true := by
                unfold sectionsOk
                simp [into_inner_mk, as_rule_mk, beq_iff_eq, hnp, hdp, hcp, hep]
              rw [hok] at hsec
              simp at hsec

/-- Instantiation of `try_from_pair_spec` on a complete section pair and on
an empty one. -/
theorem try_from_pair_spec_witness :
    (TestCase.try_from_pair
        (.mk .expression ""
          [.mk .test_name (" My Test ") [],
           .mk .code_block "" [.mk .div ("===") [], .mk .code (" fn x ") []],
           .mk .expression "" [.mk .rule_name ("a") []]]) =
      .ok ⟨strTrim ((Pair.mk .test_name (" My Test ") []).as_str),
        strTrim ((Pair.mk .code (" fn x ") []).as_str),
        .Terminal ("a") none⟩) ∧
    (∃ m, TestCase.try_from_pair (.mk .expression "" []) = .error m) :=
  ⟨try_from_pair_spec.1 .expression "" (.mk .test_name (" My Test ") [])
      (.mk .code_block "" [.mk .div ("===") [], .mk .code (" fn x ") []])
      (.mk .expression "" [.mk .rule_name ("a") []]) []
      (.mk .div ("===") []) (.mk .code (" fn x ") []) []
      (.Terminal ("a") none) rfl rfl rfl rfl rfl rfl rfl,
   try_from_pair_spec.2 (.mk .expression "" []) (by decide)⟩
